import Mathlib

set_option maxRecDepth 40000

/-!
Shallow embedding of the k3sup `plan` command planner
(source: `src/cmd/plan.go`, function `MakePlan`, RunE body lines 41-158).

The planner is the pure part of `MakePlan`: after the host file has been
parsed and the flags read, it walks the host list once, assigns each host a
role (primary control plane, additional control plane, worker), and appends
one rendered command block per host to a script string, stopping early when
the `--limit` flag is positive and reached.

The embedding decomposes the script into the list of per-host command
blocks (the spec's CommandBlock); the full script is the fixed shebang
header followed by the concatenation of the blocks' rendered text, exactly
as the Go code accumulates it into `script`.  Each block additionally
records, as separate fields, the host address, the role, the ordinal used
in its echo marker, and the exact strings interpolated for the optional
TLS-SAN / extra-args / background slots of its template ("" when the
template has no such slot), so that clause-presence claims can be stated
about the slot the code fills rather than by raw substring search.
-/

namespace K3sup

/-- Host record, from `type Host struct` (plan.go lines 196-199). -/
structure Host where
  hostname : String
  ip : String
deriving DecidableEq, Inhabited, Repr

/-- The role a host is assigned by the planner loop (plan.go lines 100-148). -/
inductive Role where
  | PrimaryControlPlane
  | AdditionalControlPlane
  | Worker
deriving DecidableEq, Inhabited, Repr

/-- The flag values read by RunE (plan.go lines 50-71), named after the Go
locals.  `servers` and `nodeLimit` are Go ints, embedded as `Int`. -/
structure Config where
  servers : Int
  kubeconfig : String
  contextName : String
  user : String
  tlsSan : String
  serverK3sExtraArgs : String
  agentK3sExtraArgs : String
  background : Bool
  nodeLimit : Int
deriving DecidableEq, Inhabited, Repr

/-- plan.go lines 73-77: the optional TLS-SAN clause. -/
def tlsSanStr (c : Config) : String :=
  if c.tlsSan.length > 0 then " \\\n--tls-san " ++ c.tlsSan else ""

/-- plan.go lines 80-83: the optional background suffix. -/
def bgStr (c : Config) : String :=
  if c.background then " &" else ""

/-- plan.go lines 89-93: the optional server extra-args clause. -/
def serverExtraArgsSt (c : Config) : String :=
  if c.serverK3sExtraArgs.length > 0 then
    " \\\n--k3s-extra-args \"" ++ c.serverK3sExtraArgs ++ "\""
  else ""

/-- plan.go lines 94-98: the optional agent extra-args clause. -/
def agentExtraArgsSt (c : Config) : String :=
  if c.agentK3sExtraArgs.length > 0 then
    " \\\n--k3s-extra-args \"" ++ c.agentK3sExtraArgs ++ "\""
  else ""

/-- One rendered command block of the plan: the text the loop body appends
to `script` for one host, together with the host address, role, echo-marker
ordinal and the strings interpolated into the template's optional slots. -/
structure CommandBlock where
  hostIP : String
  role : Role
  marker : Int
  tlsClause : String
  extraClause : String
  bgClause : String
  rendered : String
deriving DecidableEq, Inhabited, Repr

/-- plan.go lines 101-126 (`serversAdded == 0` branch): the primary
control-plane block: echo marker, `k3sup install` invocation, and the
node-token capture.  The template has no background slot. -/
def primaryBlock (c : Config) (host : Host) : CommandBlock :=
  { hostIP := host.ip
    role := Role.PrimaryControlPlane
    marker := 1
    tlsClause := tlsSanStr c
    extraClause := serverExtraArgsSt c
    bgClause := ""
    rendered :=
      "echo \"Setting up primary server 1\"\nk3sup install --host " ++
      host.ip ++ " \\\n--user " ++ c.user ++
      " \\\n--cluster \\\n--local-path " ++ c.kubeconfig ++
      " \\\n--context " ++ c.contextName ++ tlsSanStr c ++ serverExtraArgsSt c ++
      "\n\necho \"Fetching the server\x27s node-token into memory\"\n\nexport NODE_TOKEN=$(k3sup node-token --host " ++
      host.ip ++ " --user " ++ c.user ++ ")\n" }

/-- plan.go lines 127-138 (`serversAdded < servers` branch): an additional
control-plane block; `serversAdded` is the loop counter value on entry. -/
def additionalBlock (c : Config) (host primaryServer : Host) (serversAdded : Nat) : CommandBlock :=
  { hostIP := host.ip
    role := Role.AdditionalControlPlane
    marker := (serversAdded : Int) + 1
    tlsClause := tlsSanStr c
    extraClause := serverExtraArgsSt c
    bgClause := bgStr c
    rendered :=
      "\necho \"Setting up additional server: " ++ toString ((serversAdded : Int) + 1) ++
      "\"\nk3sup join \\\n--host " ++ host.ip ++
      " \\\n--server-host " ++ primaryServer.ip ++
      " \\\n--server \\\n--node-token \"$NODE_TOKEN\" \\\n--user " ++ c.user ++
      tlsSanStr c ++ serverExtraArgsSt c ++ bgStr c ++ "\n" }

/-- plan.go lines 139-148 (final `else` branch): a worker block; `i` is the
0-based loop index, `serversAdded` the counter value on entry.  The worker
template has no TLS-SAN slot and uses the agent extra-args. -/
def workerBlock (c : Config) (host primaryServer : Host) (i serversAdded : Nat) : CommandBlock :=
  { hostIP := host.ip
    role := Role.Worker
    marker := (i : Int) + 1 - (serversAdded : Int)
    tlsClause := ""
    extraClause := agentExtraArgsSt c
    bgClause := bgStr c
    rendered :=
      "\necho \"Setting up worker: " ++ toString ((i : Int) + 1 - (serversAdded : Int)) ++
      "\"\nk3sup join \\\n--host " ++ host.ip ++
      " \\\n--server-host " ++ primaryServer.ip ++
      " \\\n--node-token \"$NODE_TOKEN\" \\\n--user " ++ c.user ++
      agentExtraArgsSt c ++ bgStr c ++ "\n" }

/-- plan.go lines 100-153: the `for i, host := range hosts` loop.  `i` is
the loop index, `serversAdded` and `primaryServer` the two mutable locals.
Each recursive branch appends the branch's block and then performs the
`nodeLimit > 0 && i+1 >= nodeLimit` break check of lines 150-152 (the
single check after the if/else chain in the source is expanded into each
branch here; the condition and placement are identical). -/
def planBlocksAux (c : Config) : List Host → Nat → Nat → Host → List CommandBlock
  | [], _, _, _ => []
  | host :: rest, i, serversAdded, primaryServer =>
    if serversAdded = 0 then
      if 0 < c.nodeLimit ∧ c.nodeLimit ≤ (i : Int) + 1 then [primaryBlock c host]
      else primaryBlock c host :: planBlocksAux c rest (i + 1) 1 host
    else if (serversAdded : Int) < c.servers then
      if 0 < c.nodeLimit ∧ c.nodeLimit ≤ (i : Int) + 1 then
        [additionalBlock c host primaryServer serversAdded]
      else additionalBlock c host primaryServer serversAdded ::
        planBlocksAux c rest (i + 1) (serversAdded + 1) primaryServer
    else
      if 0 < c.nodeLimit ∧ c.nodeLimit ≤ (i : Int) + 1 then
        [workerBlock c host primaryServer i serversAdded]
      else workerBlock c host primaryServer i serversAdded ::
        planBlocksAux c rest (i + 1) serversAdded primaryServer

/-- The ordered command blocks of the plan: the loop started with
`serversAdded := 0` and `primaryServer` the Host zero value
(plan.go lines 85-86). -/
def planBlocks (c : Config) (hosts : List Host) : List CommandBlock :=
  planBlocksAux c hosts 0 0 { hostname := "", ip := "" }

/-- The accumulated `script` string after the loop: the fixed shebang
header of plan.go line 87 followed by every block's rendered text. -/
def planScript (c : Config) (hosts : List Host) : String :=
  "#!/bin/sh\n\n" ++ String.join ((planBlocks c hosts).map CommandBlock.rendered)

/-- plan.go line 155, `fmt.Printf("%s\n", script)`: the text the command
prints. -/
def MakePlanOutput (c : Config) (hosts : List Host) : String :=
  planScript c hosts ++ "\n"

/-- plan.go lines 100-157: once the host file is parsed, the RunE body has
no failing path; it prints the script and returns nil (line 157). -/
def MakePlanRunE (c : Config) (hosts : List Host) : Except String String :=
  Except.ok (MakePlanOutput c hosts)

/-- Number of control-plane blocks (primary or additional) in a block list. -/
def cpCount (bs : List CommandBlock) : Nat :=
  (bs.filter fun b => !(b.role == Role.Worker)).length

/-- Number of worker blocks in a block list. -/
def workerCount (bs : List CommandBlock) : Nat :=
  (bs.filter fun b => b.role == Role.Worker).length

/-- Concrete fixture: a configuration with two desired servers, TLS SAN
set, background on, no host limit. -/
def cfgW : Config :=
  { servers := 2, kubeconfig := "k", contextName := "x", user := "u",
    tlsSan := "s", serverK3sExtraArgs := "", agentK3sExtraArgs := "",
    background := true, nodeLimit := 0 }

/-- Concrete fixture: `cfgW` with a host limit of 2. -/
def cfgL : Config := { cfgW with nodeLimit := 2 }

/-- Concrete fixture: `cfgW` with zero desired servers. -/
def cfgZ : Config := { cfgW with servers := 0 }

/-- Concrete fixture: one desired server and a TLS SAN, mirroring the
default flags otherwise. -/
def cfg4 : Config :=
  { servers := 1, kubeconfig := "kubeconfig", contextName := "default",
    user := "root", tlsSan := "san.example.com", serverK3sExtraArgs := "",
    agentK3sExtraArgs := "", background := false, nodeLimit := 0 }

/-- Concrete fixture: three hosts. -/
def hostsW : List Host := [⟨"h1", "a"⟩, ⟨"h2", "b"⟩, ⟨"h3", "c"⟩]

/-- Concrete fixture: the same addresses as `hostsW` under different
hostnames. -/
def hostsW2 : List Host := [⟨"n1", "a"⟩, ⟨"n2", "b"⟩, ⟨"n3", "c"⟩]

/-- Concrete fixture: two hosts. -/
def hosts4 : List Host := [⟨"node-1", "10.0.0.1"⟩, ⟨"node-2", "10.0.0.2"⟩]

/-- `needle` occurs verbatim (as a contiguous substring) in `hay`. -/
def Occurs (needle hay : String) : Prop :=
  needle.data <:+: hay.data

instance (needle hay : String) : Decidable (Occurs needle hay) :=
  inferInstanceAs (Decidable (needle.data <:+: hay.data))

/-- `hay` ends with the string `suf`. -/
def EndsWith (suf hay : String) : Prop :=
  suf.data <:+ hay.data

instance (suf hay : String) : Decidable (EndsWith suf hay) :=
  inferInstanceAs (Decidable (suf.data <:+ hay.data))

/-! ## Basic facts about string occurrence -/

theorem occurs_skip (x : String) {n y : String} (h : Occurs n y) : Occurs n (x ++ y) := by
  obtain ⟨s, t, hst⟩ := h
  refine ⟨x.data ++ s, t, ?_⟩
  rw [String.data_append, ← hst]
  simp [List.append_assoc]

theorem occurs_at_end (x n : String) : Occurs n (x ++ n) :=
  ⟨x.data, [], by simp [String.data_append]⟩

theorem occurs_take {n y : String} (h : Occurs n y) (suf : String) : Occurs n (y ++ suf) := by
  obtain ⟨s, t, hst⟩ := h
  refine ⟨s, t ++ suf.data, ?_⟩
  rw [String.data_append, ← hst]
  simp [List.append_assoc]

theorem occurs_pair (A B C : String) : Occurs (B ++ C) ((A ++ B) ++ C) :=
  ⟨A.data, [], by simp [String.data_append, List.append_assoc]⟩

theorem ends_skip (x : String) {s y : String} (h : EndsWith s y) : EndsWith s (x ++ y) := by
  obtain ⟨w, hw⟩ := h
  exact ⟨x.data ++ w, by rw [String.data_append, List.append_assoc, hw]⟩

theorem ends_amp (X : String) : EndsWith " &\n" ((X ++ " &") ++ "\n") :=
  ⟨X.data, by rw [String.data_append, String.data_append, List.append_assoc]; rfl⟩

theorem str_len_pos {s : String} (h : s ≠ "") : 0 < s.length := by
  cases s with
  | mk d =>
    cases d with
    | nil => exact absurd rfl h
    | cons a l => simp [String.length]

theorem str_ne_empty {s : String} (h : 0 < s.length) : s ≠ "" := by
  intro hs
  subst hs
  simp at h

theorem append_ne_empty_left {a : String} (b : String) (h : a ≠ "") : a ++ b ≠ "" := by
  apply str_ne_empty
  rw [String.length_append]
  have := str_len_pos h
  omega

/-! ## The optional clause strings -/

theorem tlsSanStr_eq {c : Config} (h : c.tlsSan ≠ "") :
    tlsSanStr c = " \\\n" ++ ("--tls-san " ++ c.tlsSan) := by
  rw [tlsSanStr, if_pos (str_len_pos h)]
  rfl

theorem tlsSanStr_ne {c : Config} : tlsSanStr c ≠ "" ↔ c.tlsSan ≠ "" := by
  constructor
  · intro h hc
    apply h
    rw [tlsSanStr, if_neg]
    rw [hc]
    simp
  · intro h
    rw [tlsSanStr_eq h]
    exact append_ne_empty_left _ (by decide)

theorem bgStr_eq {c : Config} (h : c.background = true) : bgStr c = " &" := by
  rw [bgStr, h]
  rfl

theorem bgStr_ne {c : Config} : bgStr c ≠ "" ↔ c.background = true := by
  rw [bgStr]
  cases c.background <;> simp

/-! ## Per-block facts -/

theorem primaryBlock_has_ip (c : Config) (host : Host) :
    Occurs host.ip (primaryBlock c host).rendered := by
  simp only [primaryBlock]
  apply occurs_take
  apply occurs_take
  apply occurs_take
  exact occurs_at_end _ _

theorem primaryBlock_token_cap (c : Config) (host : Host) :
    Occurs "export NODE_TOKEN=" (primaryBlock c host).rendered := by
  simp only [primaryBlock]
  apply occurs_take
  apply occurs_take
  apply occurs_take
  apply occurs_take
  apply occurs_skip
  decide

theorem primaryBlock_tls (c : Config) (host : Host) (h : c.tlsSan ≠ "") :
    Occurs ("--tls-san " ++ c.tlsSan) (primaryBlock c host).rendered := by
  simp only [primaryBlock]
  rw [tlsSanStr_eq h]
  apply occurs_take
  apply occurs_take
  apply occurs_take
  apply occurs_take
  apply occurs_take
  apply occurs_take
  apply occurs_skip
  exact occurs_skip _ (occurs_at_end "" _)

theorem amp_ne_paren {w X : List Char}
    (hw : w ++ [' ', '&', '\n'] = X ++ [')', '\n']) : False := by
  have h := congrArg List.reverse hw
  rw [List.reverse_append, List.reverse_append] at h
  rw [show ([' ', '&', '\n'] : List Char).reverse = ['\n', '&', ' '] from rfl,
    show ([')', '\n'] : List Char).reverse = ['\n', ')'] from rfl] at h
  have h2 : ('\n' :: '&' :: ' ' :: w.reverse : List Char) = '\n' :: ')' :: X.reverse := h
  injection h2 with _ h3
  injection h3 with h4 _
  exact absurd h4 (by decide)

theorem primaryBlock_no_bg_suffix (c : Config) (host : Host) :
    ¬ EndsWith " &\n" (primaryBlock c host).rendered := by
  intro h
  obtain ⟨w, hw⟩ := h
  simp only [primaryBlock, String.data_append] at hw
  exact amp_ne_paren hw

theorem additionalBlock_has_primary_ip (c : Config) (host p : Host) (sA : Nat) :
    Occurs p.ip (additionalBlock c host p sA).rendered := by
  simp only [additionalBlock]
  apply occurs_take
  apply occurs_take
  apply occurs_take
  apply occurs_take
  apply occurs_take
  apply occurs_take
  exact occurs_at_end _ _

theorem additionalBlock_token (c : Config) (host p : Host) (sA : Nat) :
    Occurs "$NODE_TOKEN" (additionalBlock c host p sA).rendered := by
  simp only [additionalBlock]
  apply occurs_take
  apply occurs_take
  apply occurs_take
  apply occurs_take
  apply occurs_take
  apply occurs_skip
  decide

theorem additionalBlock_tls (c : Config) (host p : Host) (sA : Nat) (h : c.tlsSan ≠ "") :
    Occurs ("--tls-san " ++ c.tlsSan) (additionalBlock c host p sA).rendered := by
  simp only [additionalBlock]
  rw [tlsSanStr_eq h]
  apply occurs_take
  apply occurs_take
  apply occurs_take
  apply occurs_skip
  exact occurs_skip _ (occurs_at_end "" _)

theorem additionalBlock_bg (c : Config) (host p : Host) (sA : Nat)
    (h : c.background = true) :
    EndsWith " &\n" (additionalBlock c host p sA).rendered := by
  simp only [additionalBlock]
  rw [bgStr_eq h]
  exact ends_amp _

theorem workerBlock_has_primary_ip (c : Config) (host p : Host) (i sA : Nat) :
    Occurs p.ip (workerBlock c host p i sA).rendered := by
  simp only [workerBlock]
  apply occurs_take
  apply occurs_take
  apply occurs_take
  apply occurs_take
  apply occurs_take
  exact occurs_at_end _ _

theorem workerBlock_token (c : Config) (host p : Host) (i sA : Nat) :
    Occurs "$NODE_TOKEN" (workerBlock c host p i sA).rendered := by
  simp only [workerBlock]
  apply occurs_take
  apply occurs_take
  apply occurs_take
  apply occurs_take
  apply occurs_skip
  decide

theorem workerBlock_bg (c : Config) (host p : Host) (i sA : Nat)
    (h : c.background = true) :
    EndsWith " &\n" (workerBlock c host p i sA).rendered := by
  simp only [workerBlock]
  rw [bgStr_eq h]
  exact ends_amp _

theorem workerBlock_marker_echo (c : Config) (host p : Host) (i sA : Nat) :
    Occurs ("Setting up worker: " ++ toString ((workerBlock c host p i sA).marker))
      (workerBlock c host p i sA).rendered := by
  simp only [workerBlock]
  apply occurs_take
  apply occurs_take
  apply occurs_take
  apply occurs_take
  apply occurs_take
  apply occurs_take
  apply occurs_take
  apply occurs_take
  apply occurs_take
  rw [show ("\necho \"Setting up worker: " : String) =
    "\necho \"" ++ "Setting up worker: " from rfl]
  exact occurs_pair _ _ _

/-! ## Structure of the planner loop -/

theorem planBlocksAux_length (c : Config) :
    ∀ (hosts : List Host) (i sA : Nat) (p : Host),
      (0 < c.nodeLimit → (i : Int) + hosts.length ≤ c.nodeLimit) →
      (planBlocksAux c hosts i sA p).length = hosts.length := by
  intro hosts
  induction hosts with
  | nil => intro i sA p _; simp [planBlocksAux]
  | cons h rest ih =>
    intro i sA p hlim
    simp only [List.length_cons] at hlim ⊢
    by_cases hb : 0 < c.nodeLimit ∧ c.nodeLimit ≤ (i : Int) + 1
    · have hr : rest.length = 0 := by
        have := hlim hb.1
        push_cast at this
        omega
      have hr2 : rest = [] := List.length_eq_zero.mp hr
      subst hr2
      simp only [planBlocksAux, if_pos hb]
      split
      · simp
      · split <;> simp
    · simp only [planBlocksAux, if_neg hb]
      have hlim2 : 0 < c.nodeLimit → (i + 1 : Int) + rest.length ≤ c.nodeLimit := by
        intro h0
        have := hlim h0
        push_cast at this ⊢
        omega
      split
      · rw [List.length_cons, ih _ _ _ hlim2]
      · split
        · rw [List.length_cons, ih _ _ _ hlim2]
        · rw [List.length_cons, ih _ _ _ hlim2]

theorem planBlocksAux_take (c : Config) :
    ∀ (hosts : List Host) (i sA : Nat) (p : Host),
      0 < c.nodeLimit → (i : Int) < c.nodeLimit →
      planBlocksAux c hosts i sA p =
        planBlocksAux c (hosts.take (c.nodeLimit.toNat - i)) i sA p := by
  intro hosts
  induction hosts with
  | nil => intro i sA p _ _; simp [planBlocksAux]
  | cons h rest ih =>
    intro i sA p hL hi
    have htk : c.nodeLimit.toNat - i = (c.nodeLimit.toNat - (i + 1)) + 1 := by omega
    rw [htk, List.take_succ_cons]
    by_cases hb : 0 < c.nodeLimit ∧ c.nodeLimit ≤ (i : Int) + 1
    · have h0 : c.nodeLimit.toNat - (i + 1) = 0 := by omega
      rw [h0, List.take_zero]
      simp only [planBlocksAux, if_pos hb]
    · simp only [planBlocksAux, if_neg hb]
      have hi2 : ((i + 1 : Nat) : Int) < c.nodeLimit := by push_cast; omega
      split
      · rw [ih _ _ _ hL hi2]
      · split
        · rw [ih _ _ _ hL hi2]
        · rw [ih _ _ _ hL hi2]

theorem planBlocksAux_origin (c : Config) :
    ∀ (hosts : List Host) (i sA : Nat) (p : Host) (j : Nat) (b : CommandBlock),
      (planBlocksAux c hosts i sA p)[j]? = some b →
      (∃ host, b = primaryBlock c host) ∨
      (∃ host p2 sA2, b = additionalBlock c host p2 sA2) ∨
      (∃ host p2 i2 sA2, b = workerBlock c host p2 i2 sA2) := by
  intro hosts
  induction hosts with
  | nil => intro i sA p j b hb; simp [planBlocksAux] at hb
  | cons h rest ih =>
    intro i sA p j b hb
    simp only [planBlocksAux] at hb
    split at hb
    · split at hb
      · cases j with
        | zero =>
          simp only [List.getElem?_cons_zero, Option.some.injEq] at hb
          exact Or.inl ⟨h, hb.symm⟩
        | succ j => simp at hb
      · cases j with
        | zero =>
          simp only [List.getElem?_cons_zero, Option.some.injEq] at hb
          exact Or.inl ⟨h, hb.symm⟩
        | succ j =>
          simp only [List.getElem?_cons_succ] at hb
          exact ih _ _ _ _ _ hb
    · split at hb
      · split at hb
        · cases j with
          | zero =>
            simp only [List.getElem?_cons_zero, Option.some.injEq] at hb
            exact Or.inr (Or.inl ⟨h, p, sA, hb.symm⟩)
          | succ j => simp at hb
        · cases j with
          | zero =>
            simp only [List.getElem?_cons_zero, Option.some.injEq] at hb
            exact Or.inr (Or.inl ⟨h, p, sA, hb.symm⟩)
          | succ j =>
            simp only [List.getElem?_cons_succ] at hb
            exact ih _ _ _ _ _ hb
      · split at hb
        · cases j with
          | zero =>
            simp only [List.getElem?_cons_zero, Option.some.injEq] at hb
            exact Or.inr (Or.inr ⟨h, p, i, sA, hb.symm⟩)
          | succ j => simp at hb
        · cases j with
          | zero =>
            simp only [List.getElem?_cons_zero, Option.some.injEq] at hb
            exact Or.inr (Or.inr ⟨h, p, i, sA, hb.symm⟩)
          | succ j =>
            simp only [List.getElem?_cons_succ] at hb
            exact ih _ _ _ _ _ hb

theorem planBlocksAux_role (c : Config) :
    ∀ (hosts : List Host) (i sA : Nat) (p : Host) (j : Nat) (b : CommandBlock),
      1 ≤ sA →
      (planBlocksAux c hosts i sA p)[j]? = some b →
      b.role = if (sA : Int) + (j : Int) < c.servers then Role.AdditionalControlPlane
        else Role.Worker := by
  intro hosts
  induction hosts with
  | nil => intro i sA p j b _ hb; simp [planBlocksAux] at hb
  | cons h rest ih =>
    intro i sA p j b hsA hb
    have hs0 : ¬ (sA = 0) := by omega
    simp only [planBlocksAux, if_neg hs0] at hb
    split at hb
    case isTrue hlt =>
      split at hb
      · cases j with
        | zero =>
          simp only [List.getElem?_cons_zero, Option.some.injEq] at hb
          rw [← hb]
          simp only [additionalBlock]
          rw [if_pos (by push_cast; omega)]
        | succ j => simp at hb
      · cases j with
        | zero =>
          simp only [List.getElem?_cons_zero, Option.some.injEq] at hb
          rw [← hb]
          simp only [additionalBlock]
          rw [if_pos (by push_cast; omega)]
        | succ j =>
          simp only [List.getElem?_cons_succ] at hb
          rw [ih _ _ _ _ _ (by omega) hb]
          exact if_congr (by push_cast; omega) rfl rfl
    case isFalse hge =>
      split at hb
      · cases j with
        | zero =>
          simp only [List.getElem?_cons_zero, Option.some.injEq] at hb
          rw [← hb]
          simp only [workerBlock]
          rw [if_neg (by push_cast; omega)]
        | succ j => simp at hb
      · cases j with
        | zero =>
          simp only [List.getElem?_cons_zero, Option.some.injEq] at hb
          rw [← hb]
          simp only [workerBlock]
          rw [if_neg (by push_cast; omega)]
        | succ j =>
          simp only [List.getElem?_cons_succ] at hb
          rw [ih _ _ _ _ _ hsA hb]
          rw [if_neg (by omega), if_neg (by push_cast; omega)]

theorem planBlocksAux_ref (c : Config) :
    ∀ (hosts : List Host) (i sA : Nat) (p : Host) (j : Nat) (b : CommandBlock),
      1 ≤ sA →
      (planBlocksAux c hosts i sA p)[j]? = some b →
      (b.role = Role.AdditionalControlPlane ∨ b.role = Role.Worker) ∧
        Occurs p.ip b.rendered ∧ Occurs "$NODE_TOKEN" b.rendered := by
  intro hosts
  induction hosts with
  | nil => intro i sA p j b _ hb; simp [planBlocksAux] at hb
  | cons h rest ih =>
    intro i sA p j b hsA hb
    have hs0 : ¬ (sA = 0) := by omega
    simp only [planBlocksAux, if_neg hs0] at hb
    split at hb
    · split at hb
      · cases j with
        | zero =>
          simp only [List.getElem?_cons_zero, Option.some.injEq] at hb
          rw [← hb]
          exact ⟨Or.inl rfl, additionalBlock_has_primary_ip c h p sA,
            additionalBlock_token c h p sA⟩
        | succ j => simp at hb
      · cases j with
        | zero =>
          simp only [List.getElem?_cons_zero, Option.some.injEq] at hb
          rw [← hb]
          exact ⟨Or.inl rfl, additionalBlock_has_primary_ip c h p sA,
            additionalBlock_token c h p sA⟩
        | succ j =>
          simp only [List.getElem?_cons_succ] at hb
          exact ih _ _ _ _ _ (by omega) hb
    · split at hb
      · cases j with
        | zero =>
          simp only [List.getElem?_cons_zero, Option.some.injEq] at hb
          rw [← hb]
          exact ⟨Or.inr rfl, workerBlock_has_primary_ip c h p i sA,
            workerBlock_token c h p i sA⟩
        | succ j => simp at hb
      · cases j with
        | zero =>
          simp only [List.getElem?_cons_zero, Option.some.injEq] at hb
          rw [← hb]
          exact ⟨Or.inr rfl, workerBlock_has_primary_ip c h p i sA,
            workerBlock_token c h p i sA⟩
        | succ j =>
          simp only [List.getElem?_cons_succ] at hb
          exact ih _ _ _ _ _ hsA hb

/-! ## Counting control-plane and worker blocks -/

theorem cpCount_nil : cpCount [] = 0 := rfl

theorem workerCount_nil : workerCount [] = 0 := rfl

theorem cpCount_cons (b : CommandBlock) (bs : List CommandBlock) :
    cpCount (b :: bs) = (if b.role = Role.Worker then 0 else 1) + cpCount bs := by
  by_cases hr : b.role = Role.Worker
  · simp [cpCount, List.filter_cons, hr]
  · simp only [cpCount, List.filter_cons, hr]
    simp [hr]
    omega

theorem workerCount_cons (b : CommandBlock) (bs : List CommandBlock) :
    workerCount (b :: bs) = (if b.role = Role.Worker then 1 else 0) + workerCount bs := by
  by_cases hr : b.role = Role.Worker
  · simp only [workerCount, List.filter_cons, hr]
    simp [hr]
    omega
  · simp [workerCount, List.filter_cons, hr]

theorem cpCount_add_workerCount (bs : List CommandBlock) :
    cpCount bs + workerCount bs = bs.length := by
  induction bs with
  | nil => rfl
  | cons b bs ih =>
    rw [cpCount_cons, workerCount_cons, List.length_cons]
    by_cases hr : b.role = Role.Worker
    · rw [if_pos hr, if_pos hr]; omega
    · rw [if_neg hr, if_neg hr]; omega

theorem planBlocksAux_marker (c : Config) :
    ∀ (hosts : List Host) (i sA : Nat) (p : Host) (j : Nat) (b : CommandBlock),
      1 ≤ sA →
      (planBlocksAux c hosts i sA p)[j]? = some b →
      b.role = Role.Worker →
      b.marker = (i : Int) + (j : Int) + 1 -
        ((sA : Int) + (cpCount ((planBlocksAux c hosts i sA p).take j) : Int)) := by
  intro hosts
  induction hosts with
  | nil => intro i sA p j b _ hb; simp [planBlocksAux] at hb
  | cons h rest ih =>
    intro i sA p j b hsA hb hw
    have hs0 : ¬ (sA = 0) := by omega
    simp only [planBlocksAux, if_neg hs0] at hb ⊢
    split at hb
    case isTrue hlt =>
      split at hb
      case isTrue hbrk =>
        cases j with
        | zero =>
          simp only [List.getElem?_cons_zero, Option.some.injEq] at hb
          rw [← hb] at hw
          simp [additionalBlock] at hw
        | succ j => simp at hb
      case isFalse hbrk =>
        cases j with
        | zero =>
          simp only [List.getElem?_cons_zero, Option.some.injEq] at hb
          rw [← hb] at hw
          simp [additionalBlock] at hw
        | succ j =>
          simp only [List.getElem?_cons_succ] at hb
          have hmk := ih _ _ _ _ _ (by omega) hb hw
          rw [if_pos hlt, if_neg hbrk, List.take_succ_cons, cpCount_cons]
          rw [if_neg (by simp [additionalBlock])]
          rw [hmk]
          push_cast
          ring
    case isFalse hge =>
      split at hb
      case isTrue hbrk =>
        cases j with
        | zero =>
          simp only [List.getElem?_cons_zero, Option.some.injEq] at hb
          rw [if_neg hge, if_pos hbrk, List.take_zero, cpCount_nil, ← hb]
          simp [workerBlock]
        | succ j => simp at hb
      case isFalse hbrk =>
        cases j with
        | zero =>
          simp only [List.getElem?_cons_zero, Option.some.injEq] at hb
          rw [if_neg hge, if_neg hbrk, List.take_zero, cpCount_nil, ← hb]
          simp [workerBlock]
        | succ j =>
          simp only [List.getElem?_cons_succ] at hb
          have hmk := ih _ _ _ _ _ hsA hb hw
          rw [if_neg hge, if_neg hbrk, List.take_succ_cons, cpCount_cons]
          rw [if_pos (by simp [workerBlock])]
          rw [hmk]
          push_cast
          ring

theorem planBlocksAux_cpCount (c : Config) (hl : c.nodeLimit ≤ 0) :
    ∀ (hosts : List Host) (i sA : Nat) (p : Host),
      1 ≤ sA →
      cpCount (planBlocksAux c hosts i sA p) =
        min hosts.length (c.servers - (sA : Int)).toNat := by
  intro hosts
  induction hosts with
  | nil => intro i sA p _; simp [planBlocksAux, cpCount]
  | cons h rest ih =>
    intro i sA p hsA
    have hs0 : ¬ (sA = 0) := by omega
    have hnb : ¬ (0 < c.nodeLimit ∧ c.nodeLimit ≤ (i : Int) + 1) := by omega
    simp only [planBlocksAux, if_neg hs0, if_neg hnb]
    split
    case isTrue hlt =>
      rw [cpCount_cons, if_neg (by simp [additionalBlock]), ih _ _ _ (by omega)]
      simp only [List.length_cons]
      omega
    case isFalse hge =>
      rw [cpCount_cons, if_pos (by simp [workerBlock]), ih _ _ _ hsA]
      simp only [List.length_cons]
      omega

theorem planBlocksAux_workerCount (c : Config) (hl : c.nodeLimit ≤ 0) :
    ∀ (hosts : List Host) (i sA : Nat) (p : Host),
      1 ≤ sA →
      workerCount (planBlocksAux c hosts i sA p) =
        hosts.length - (c.servers - (sA : Int)).toNat := by
  intro hosts
  induction hosts with
  | nil => intro i sA p _; simp [planBlocksAux, workerCount]
  | cons h rest ih =>
    intro i sA p hsA
    have hs0 : ¬ (sA = 0) := by omega
    have hnb : ¬ (0 < c.nodeLimit ∧ c.nodeLimit ≤ (i : Int) + 1) := by omega
    simp only [planBlocksAux, if_neg hs0, if_neg hnb]
    split
    case isTrue hlt =>
      rw [workerCount_cons, if_neg (by simp [additionalBlock]), ih _ _ _ (by omega)]
      simp only [List.length_cons]
      omega
    case isFalse hge =>
      rw [workerCount_cons, if_pos (by simp [workerBlock]), ih _ _ _ hsA]
      simp only [List.length_cons]
      omega

/-! ## The top of the plan -/

theorem planBlocks_cons_eq (c : Config) (h : Host) (rest : List Host) :
    planBlocks c (h :: rest) =
      if 0 < c.nodeLimit ∧ c.nodeLimit ≤ ((0 : Nat) : Int) + 1 then [primaryBlock c h]
      else primaryBlock c h :: planBlocksAux c rest 1 1 h := by
  rw [planBlocks, planBlocksAux, if_pos rfl]

theorem planBlocks_cons (c : Config) (h : Host) (rest : List Host) :
    planBlocks c (h :: rest) = [primaryBlock c h] ∨
    planBlocks c (h :: rest) = primaryBlock c h :: planBlocksAux c rest 1 1 h := by
  rw [planBlocks, planBlocksAux, if_pos rfl]
  by_cases hb : 0 < c.nodeLimit ∧ c.nodeLimit ≤ ((0 : Nat) : Int) + 1
  · rw [if_pos hb]
    exact Or.inl rfl
  · rw [if_neg hb]
    exact Or.inr rfl

theorem planBlocks_cons_nolimit (c : Config) (h : Host) (rest : List Host)
    (hl : c.nodeLimit ≤ 0) :
    planBlocks c (h :: rest) = primaryBlock c h :: planBlocksAux c rest 1 1 h := by
  rw [planBlocks, planBlocksAux, if_pos rfl, if_neg (by push_cast; omega)]

theorem planBlocks_head (c : Config) (h : Host) (rest : List Host) :
    (planBlocks c (h :: rest))[0]? = some (primaryBlock c h) := by
  rcases planBlocks_cons c h rest with he | he <;> rw [he] <;> simp

theorem planBlocks_tail (c : Config) (h : Host) (rest : List Host) (j : Nat)
    (b : CommandBlock) :
    (planBlocks c (h :: rest))[j + 1]? = some b →
    (planBlocksAux c rest 1 1 h)[j]? = some b := by
  rcases planBlocks_cons c h rest with he | he <;> rw [he]
  · intro hb
    simp at hb
  · intro hb
    simpa using hb

theorem planBlocks_tail_strong (c : Config) (h : Host) (rest : List Host) (j : Nat)
    (b : CommandBlock) :
    (planBlocks c (h :: rest))[j + 1]? = some b →
    planBlocks c (h :: rest) = primaryBlock c h :: planBlocksAux c rest 1 1 h ∧
      (planBlocksAux c rest 1 1 h)[j]? = some b := by
  rcases planBlocks_cons c h rest with he | he <;> rw [he]
  · intro hb
    simp at hb
  · intro hb
    exact ⟨rfl, by simpa using hb⟩

/-! ## Invariance facts used by C6 and C10 -/

theorem workerBlock_servers_irrelevant (c : Config) (h p : Host) (i sA : Nat) :
    workerBlock { c with servers := 1 } h p i sA = workerBlock c h p i sA := by
  simp [workerBlock, agentExtraArgsSt, bgStr]

theorem planBlocksAux_servers_clamp (c : Config) (hs : c.servers ≤ 0) :
    ∀ (hosts : List Host) (i sA : Nat) (p : Host),
      1 ≤ sA →
      planBlocksAux c hosts i sA p =
        planBlocksAux { c with servers := 1 } hosts i sA p := by
  intro hosts
  induction hosts with
  | nil => intro i sA p _; rfl
  | cons h rest ih =>
    intro i sA p hsA
    have hs0 : ¬ (sA = 0) := by omega
    have hg1 : ¬ ((sA : Int) < c.servers) := by omega
    have hg2 : ¬ ((sA : Int) < ({ c with servers := 1 } : Config).servers) := by
      show ¬ ((sA : Int) < 1)
      omega
    simp only [planBlocksAux, if_neg hs0, if_neg hg1, if_neg hg2]
    by_cases hb : 0 < c.nodeLimit ∧ c.nodeLimit ≤ (i : Int) + 1
    · rw [if_pos hb, if_pos hb, workerBlock_servers_irrelevant]
    · rw [if_neg hb, if_neg hb, workerBlock_servers_irrelevant,
        ih _ _ _ hsA]

theorem primaryBlock_ip_congr (c : Config) {h1 h2 : Host} (hip : h1.ip = h2.ip) :
    primaryBlock c h1 = primaryBlock c h2 := by
  simp [primaryBlock, hip]

theorem additionalBlock_ip_congr (c : Config) {h1 h2 p1 p2 : Host}
    (hip : h1.ip = h2.ip) (hpp : p1.ip = p2.ip) (sA : Nat) :
    additionalBlock c h1 p1 sA = additionalBlock c h2 p2 sA := by
  simp [additionalBlock, hip, hpp]

theorem workerBlock_ip_congr (c : Config) {h1 h2 p1 p2 : Host}
    (hip : h1.ip = h2.ip) (hpp : p1.ip = p2.ip) (i sA : Nat) :
    workerBlock c h1 p1 i sA = workerBlock c h2 p2 i sA := by
  simp [workerBlock, hip, hpp]

theorem planBlocksAux_ip_only (c : Config) :
    ∀ (hosts1 hosts2 : List Host) (i sA : Nat) (p1 p2 : Host),
      p1.ip = p2.ip → hosts1.map Host.ip = hosts2.map Host.ip →
      planBlocksAux c hosts1 i sA p1 = planBlocksAux c hosts2 i sA p2 := by
  intro hosts1
  induction hosts1 with
  | nil =>
    intro hosts2 i sA p1 p2 _ hm
    have : hosts2 = [] := by
      cases hosts2 with
      | nil => rfl
      | cons x xs => simp at hm
    subst this
    rfl
  | cons h1 t1 ih =>
    intro hosts2 i sA p1 p2 hp hm
    cases hosts2 with
    | nil => simp at hm
    | cons h2 t2 =>
      simp only [List.map_cons, List.cons.injEq] at hm
      obtain ⟨hip, hmt⟩ := hm
      simp only [planBlocksAux]
      split
      · split
        · rw [primaryBlock_ip_congr c hip]
        · rw [primaryBlock_ip_congr c hip, ih t2 _ _ _ _ hip hmt]
      · split
        · split
          · rw [additionalBlock_ip_congr c hip hp]
          · rw [additionalBlock_ip_congr c hip hp, ih t2 _ _ _ _ hp hmt]
        · split
          · rw [workerBlock_ip_congr c hip hp]
          · rw [workerBlock_ip_congr c hip hp, ih t2 _ _ _ _ hp hmt]

/-! ## The claims -/

/-- C1: for a non-empty host list and a desired control-plane count of at
least 1 (with no host limit), the first host is PrimaryControlPlane, the
host at index i is AdditionalControlPlane exactly when 0 < i < servers,
every other host is a Worker; so exactly min(servers, n) hosts get a
control-plane role and the remaining n - servers (truncated at 0) are
Workers. -/
theorem C1_role_assignment (c : Config) (h0 : Host) (rest : List Host)
    (hc : 1 ≤ c.servers) :
    (∀ (j : Nat) (b : CommandBlock), (planBlocks c (h0 :: rest))[j]? = some b →
      ((b.role = Role.PrimaryControlPlane ↔ j = 0) ∧
       (b.role = Role.AdditionalControlPlane ↔ 0 < j ∧ (j : Int) < c.servers) ∧
       (b.role = Role.Worker ↔ 0 < j ∧ c.servers ≤ (j : Int)))) ∧
    (c.nodeLimit ≤ 0 →
      (planBlocks c (h0 :: rest)).length = (h0 :: rest).length ∧
      cpCount (planBlocks c (h0 :: rest)) = min c.servers.toNat (h0 :: rest).length ∧
      workerCount (planBlocks c (h0 :: rest)) =
        (h0 :: rest).length - c.servers.toNat) := by
  refine ⟨?_, fun hl => ⟨?_, ?_, ?_⟩⟩
  · intro j b hb
    cases j with
    | zero =>
      rw [planBlocks_head c h0 rest] at hb
      simp only [Option.some.injEq] at hb
      rw [← hb]
      simp [primaryBlock]
    | succ j =>
      have ht := planBlocks_tail c h0 rest j b hb
      have hrole := planBlocksAux_role c rest 1 1 h0 j b (le_refl 1) ht
      refine ⟨⟨fun hP => ?_, fun h => absurd h (Nat.succ_ne_zero j)⟩, ?_, ?_⟩
      · rw [hP] at hrole
        split at hrole <;> simp at hrole
      · by_cases hx : ((1 : Nat) : Int) + (j : Int) < c.servers
        · rw [hrole, if_pos hx]
          exact iff_of_true rfl ⟨j.succ_pos, by push_cast at hx ⊢; omega⟩
        · rw [hrole, if_neg hx]
          exact iff_of_false (by decide) (by push_cast at hx ⊢; omega)
      · by_cases hx : ((1 : Nat) : Int) + (j : Int) < c.servers
        · rw [hrole, if_pos hx]
          exact iff_of_false (by decide) (by push_cast at hx ⊢; omega)
        · rw [hrole, if_neg hx]
          exact iff_of_true rfl ⟨j.succ_pos, by push_cast at hx ⊢; omega⟩
  · rw [planBlocks]
    exact planBlocksAux_length c _ 0 0 _ (fun hpos => absurd hpos (by omega))
  · rw [planBlocks_cons_nolimit c h0 rest hl, cpCount_cons,
      if_neg (by simp [primaryBlock]),
      planBlocksAux_cpCount c hl rest 1 1 h0 (le_refl 1)]
    simp only [List.length_cons]
    omega
  · rw [planBlocks_cons_nolimit c h0 rest hl, workerCount_cons,
      if_neg (by simp [primaryBlock]),
      planBlocksAux_workerCount c hl rest 1 1 h0 (le_refl 1)]
    simp only [List.length_cons]
    omega

/-- Witness for C1 at a concrete input: three hosts, two servers. -/
theorem C1_role_assignment_witness :
    (planBlocks cfgW hostsW).length = 3 ∧
    cpCount (planBlocks cfgW hostsW) = 2 ∧
    workerCount (planBlocks cfgW hostsW) = 1 := by
  have h := C1_role_assignment cfgW ⟨"h1", "a"⟩ [⟨"h2", "b"⟩, ⟨"h3", "c"⟩]
    (by decide)
  exact h.2 (by decide)

/-- C2: a positive host limit L < n yields exactly L command blocks, equal
to the plan of the input truncated to its first L hosts; a non-positive
limit processes all n hosts. -/
theorem C2_host_limit (c : Config) (hosts : List Host) :
    (0 < c.nodeLimit →
      planBlocks c hosts = planBlocks c (hosts.take c.nodeLimit.toNat) ∧
      (c.nodeLimit < (hosts.length : Int) →
        (planBlocks c hosts).length = c.nodeLimit.toNat)) ∧
    (c.nodeLimit ≤ 0 → (planBlocks c hosts).length = hosts.length) := by
  constructor
  · intro hL
    have heq : planBlocks c hosts = planBlocks c (hosts.take c.nodeLimit.toNat) := by
      have h := planBlocksAux_take c hosts 0 0 { hostname := "", ip := "" } hL
        (by push_cast; omega)
      rw [planBlocks, planBlocks]
      simpa using h
    refine ⟨heq, fun hlen => ?_⟩
    rw [heq, planBlocks]
    rw [planBlocksAux_length c _ 0 0 _ ?_]
    · rw [List.length_take]
      omega
    · intro _
      rw [List.length_take]
      push_cast
      omega
  · intro hl
    rw [planBlocks]
    exact planBlocksAux_length c hosts 0 0 _ (fun hpos => absurd hpos (by omega))

/-- Witness for C2 at a concrete input: three hosts, limit 2. -/
theorem C2_host_limit_witness :
    planBlocks cfgL hostsW = planBlocks cfgL (hostsW.take 2) ∧
    (planBlocks cfgL hostsW).length = 2 ∧
    (planBlocks cfgW hostsW).length = 3 := by
  have h := C2_host_limit cfgL hostsW
  have h2 := C2_host_limit cfgW hostsW
  exact ⟨(h.1 (by decide)).1, (h.1 (by decide)).2 (by decide), h2.2 (by decide)⟩

/-- C3: for a non-empty host list the plan's first block is the primary
control-plane block for the first host — it captures the join token from
that host's address — and every later block is an AdditionalControlPlane or
Worker join block whose rendered text contains the primary's address
verbatim and references the captured join token; so the token-capturing
primary block precedes every join block. -/
theorem C3_join_references (c : Config) (h0 : Host) (rest : List Host) :
    (planBlocks c (h0 :: rest))[0]? = some (primaryBlock c h0) ∧
    (primaryBlock c h0).role = Role.PrimaryControlPlane ∧
    (primaryBlock c h0).hostIP = h0.ip ∧
    Occurs "export NODE_TOKEN=" (primaryBlock c h0).rendered ∧
    Occurs h0.ip (primaryBlock c h0).rendered ∧
    (∀ (j : Nat) (b : CommandBlock), (planBlocks c (h0 :: rest))[j + 1]? = some b →
      (b.role = Role.AdditionalControlPlane ∨ b.role = Role.Worker) ∧
      Occurs h0.ip b.rendered ∧ Occurs "$NODE_TOKEN" b.rendered) :=
  ⟨planBlocks_head c h0 rest, rfl, rfl,
    primaryBlock_token_cap c h0, primaryBlock_has_ip c h0,
    fun j b hb =>
      planBlocksAux_ref c rest 1 1 h0 j b (le_refl 1)
        (planBlocks_tail c h0 rest j b hb)⟩

/-- Witness for C3 at a concrete input: the second block of a three-host
plan is a join block containing the primary's address and the token. -/
theorem C3_join_references_witness :
    ((additionalBlock cfgW ⟨"h2", "b"⟩ ⟨"h1", "a"⟩ 1).role =
        Role.AdditionalControlPlane ∨
      (additionalBlock cfgW ⟨"h2", "b"⟩ ⟨"h1", "a"⟩ 1).role = Role.Worker) ∧
    Occurs "a" (additionalBlock cfgW ⟨"h2", "b"⟩ ⟨"h1", "a"⟩ 1).rendered ∧
    Occurs "$NODE_TOKEN" (additionalBlock cfgW ⟨"h2", "b"⟩ ⟨"h1", "a"⟩ 1).rendered :=
  (C3_join_references cfgW ⟨"h1", "a"⟩ [⟨"h2", "b"⟩, ⟨"h3", "c"⟩]).2.2.2.2.2 0
    (additionalBlock cfgW ⟨"h2", "b"⟩ ⟨"h1", "a"⟩ 1) (by decide)

/-- C4 as written is false: with a non-empty tlsSAN, a Worker block's
rendered text does not contain the TLS-SAN clause (the worker template has
no TLS-SAN slot).  Concretely: one server, tlsSAN set, two hosts — the
second block is a Worker whose text lacks the clause. -/
theorem C4_counterexample :
    cfg4.tlsSan ≠ "" ∧
    ((planBlocks cfg4 hosts4).getD 1 default).role = Role.Worker ∧
    ((planBlocks cfg4 hosts4).getD 1 default).tlsClause = "" ∧
    ¬ Occurs "--tls-san" ((planBlocks cfg4 hosts4).getD 1 default).rendered := by
  refine ⟨by decide, by decide, by decide, by decide⟩

/-- C4 amended: a PrimaryControlPlane or AdditionalControlPlane block
carries the TLS-SAN clause iff tlsSAN is non-empty (and then its rendered
text contains the clause verbatim); a Worker block's template has no
TLS-SAN slot, so its TLS-SAN clause is always empty. -/
theorem C4_tls_san_clause (c : Config) (hosts : List Host) :
    ∀ (j : Nat) (b : CommandBlock), (planBlocks c hosts)[j]? = some b →
      ((b.role = Role.PrimaryControlPlane ∨ b.role = Role.AdditionalControlPlane) →
        (b.tlsClause ≠ "" ↔ c.tlsSan ≠ "") ∧
        (c.tlsSan ≠ "" → Occurs ("--tls-san " ++ c.tlsSan) b.rendered)) ∧
      (b.role = Role.Worker → b.tlsClause = "") := by
  intro j b hb
  rw [planBlocks] at hb
  rcases planBlocksAux_origin c hosts 0 0 _ j b hb with
    ⟨h, he⟩ | ⟨h, p2, sA2, he⟩ | ⟨h, p2, i2, sA2, he⟩ <;> subst he
  · refine ⟨fun _ => ⟨?_, fun hs => primaryBlock_tls c h hs⟩, fun hw => ?_⟩
    · simp only [primaryBlock]
      exact tlsSanStr_ne
    · simp [primaryBlock] at hw
  · refine ⟨fun _ => ⟨?_, fun hs => additionalBlock_tls c h p2 sA2 hs⟩, fun hw => ?_⟩
    · simp only [additionalBlock]
      exact tlsSanStr_ne
    · simp [additionalBlock] at hw
  · refine ⟨fun hr => ?_, fun _ => rfl⟩
    rcases hr with hr | hr <;> simp [workerBlock] at hr

/-- Witness for the amended C4 at a concrete input: an additional
control-plane block of a plan with tlsSAN "s" carries the clause. -/
theorem C4_tls_san_clause_witness :
    ((additionalBlock cfgW ⟨"h2", "b"⟩ ⟨"h1", "a"⟩ 1).tlsClause ≠ "" ↔
      cfgW.tlsSan ≠ "") ∧
    Occurs ("--tls-san " ++ cfgW.tlsSan)
      (additionalBlock cfgW ⟨"h2", "b"⟩ ⟨"h1", "a"⟩ 1).rendered := by
  have h := C4_tls_san_clause cfgW hostsW 1
    (additionalBlock cfgW ⟨"h2", "b"⟩ ⟨"h1", "a"⟩ 1) (by decide)
  exact ⟨(h.1 (Or.inr rfl)).1, (h.1 (Or.inr rfl)).2 (by decide)⟩

/-- C5: a block carries the background suffix iff runAgentsInBackground is
set and the block is AdditionalControlPlane or Worker; a block carrying it
has rendered text ending in the suffix, and a PrimaryControlPlane block
never carries it and its text never ends in the suffix. -/
theorem C5_background_suffix (c : Config) (hosts : List Host) :
    ∀ (j : Nat) (b : CommandBlock), (planBlocks c hosts)[j]? = some b →
      (b.bgClause ≠ "" ↔ (c.background = true ∧
        (b.role = Role.AdditionalControlPlane ∨ b.role = Role.Worker))) ∧
      (b.bgClause ≠ "" → EndsWith " &\n" b.rendered) ∧
      (b.role = Role.PrimaryControlPlane →
        b.bgClause = "" ∧ ¬ EndsWith " &\n" b.rendered) := by
  intro j b hb
  rw [planBlocks] at hb
  rcases planBlocksAux_origin c hosts 0 0 _ j b hb with
    ⟨h, he⟩ | ⟨h, p2, sA2, he⟩ | ⟨h, p2, i2, sA2, he⟩ <;> subst he
  · refine ⟨by simp [primaryBlock], fun hbg => absurd rfl hbg,
      fun _ => ⟨rfl, primaryBlock_no_bg_suffix c h⟩⟩
  · refine ⟨?_, fun hbg => additionalBlock_bg c h p2 sA2 (bgStr_ne.mp hbg),
      fun hP => by simp [additionalBlock] at hP⟩
    simp only [additionalBlock]
    rw [bgStr_ne]
    simp
  · refine ⟨?_, fun hbg => workerBlock_bg c h p2 i2 sA2 (bgStr_ne.mp hbg),
      fun hP => by simp [workerBlock] at hP⟩
    simp only [workerBlock]
    rw [bgStr_ne]
    simp

/-- Witness for C5 at a concrete input: the worker block of a plan with
background on carries the suffix and its text ends with it. -/
theorem C5_background_suffix_witness :
    EndsWith " &\n" (workerBlock cfgW ⟨"h3", "c"⟩ ⟨"h1", "a"⟩ 2 2).rendered ∧
    (workerBlock cfgW ⟨"h3", "c"⟩ ⟨"h1", "a"⟩ 2 2).bgClause ≠ "" := by
  have h := C5_background_suffix cfgW hostsW 2
    (workerBlock cfgW ⟨"h3", "c"⟩ ⟨"h1", "a"⟩ 2 2) (by decide)
  have hbg : (workerBlock cfgW ⟨"h3", "c"⟩ ⟨"h1", "a"⟩ 2 2).bgClause ≠ "" :=
    h.1.mpr ⟨rfl, Or.inr rfl⟩
  exact ⟨h.2.1 hbg, hbg⟩

/-- C6: a non-positive desired control-plane count behaves exactly like a
count of 1 — the plan is identical — and on a non-empty host list the first
host is the only PrimaryControlPlane, no host is AdditionalControlPlane,
and every later processed host is a Worker. -/
theorem C6_servers_clamp (c : Config) (hosts : List Host) (hs : c.servers ≤ 0) :
    planBlocks c hosts = planBlocks { c with servers := 1 } hosts ∧
    (∀ (j : Nat) (b : CommandBlock), (planBlocks c hosts)[j]? = some b →
      (b.role = Role.PrimaryControlPlane ↔ j = 0) ∧
      b.role ≠ Role.AdditionalControlPlane ∧
      (b.role = Role.Worker ↔ 0 < j)) := by
  constructor
  · cases hosts with
    | nil => rfl
    | cons h rest =>
      rw [planBlocks_cons_eq, planBlocks_cons_eq]
      by_cases hb : 0 < c.nodeLimit ∧ c.nodeLimit ≤ ((0 : Nat) : Int) + 1
      · rw [if_pos hb, if_pos (show 0 < ({ c with servers := 1 } : Config).nodeLimit ∧
          ({ c with servers := 1 } : Config).nodeLimit ≤ ((0 : Nat) : Int) + 1 from hb)]
        rw [show primaryBlock { c with servers := 1 } h = primaryBlock c h by
          simp [primaryBlock, tlsSanStr, serverExtraArgsSt]]
      · rw [if_neg hb, if_neg (show ¬ (0 < ({ c with servers := 1 } : Config).nodeLimit ∧
          ({ c with servers := 1 } : Config).nodeLimit ≤ ((0 : Nat) : Int) + 1) from hb)]
        rw [show primaryBlock { c with servers := 1 } h = primaryBlock c h by
          simp [primaryBlock, tlsSanStr, serverExtraArgsSt]]
        rw [planBlocksAux_servers_clamp c hs rest 1 1 h (le_refl 1)]
  · intro j b hb
    cases hosts with
    | nil =>
      rw [planBlocks] at hb
      simp [planBlocksAux] at hb
    | cons h rest =>
      cases j with
      | zero =>
        rw [planBlocks_head c h rest] at hb
        simp only [Option.some.injEq] at hb
        rw [← hb]
        simp [primaryBlock]
      | succ j =>
        have ht := planBlocks_tail c h rest j b hb
        have hrole := planBlocksAux_role c rest 1 1 h j b (le_refl 1) ht
        rw [if_neg (by push_cast; omega)] at hrole
        refine ⟨⟨fun hP => ?_, fun h0 => absurd h0 (Nat.succ_ne_zero j)⟩, ?_, ?_⟩
        · rw [hrole] at hP
          exact absurd hP (by decide)
        · rw [hrole]
          decide
        · rw [hrole]
          exact iff_of_true rfl (Nat.succ_pos j)

/-- Witness for C6 at a concrete input: zero desired servers on three
hosts equals the one-server plan, and the second block is a Worker. -/
theorem C6_servers_clamp_witness :
    planBlocks cfgZ hostsW = planBlocks { cfgZ with servers := 1 } hostsW ∧
    ((workerBlock cfgZ ⟨"h2", "b"⟩ ⟨"h1", "a"⟩ 1 1).role = Role.Worker ↔ 0 < 1) := by
  have h := C6_servers_clamp cfgZ hostsW (by decide)
  exact ⟨h.1, (h.2 1 (workerBlock cfgZ ⟨"h2", "b"⟩ ⟨"h1", "a"⟩ 1 1) (by decide)).2.2⟩

/-- C7: a Worker block's echo marker names its 1-based ordinal among the
Worker blocks that precede it in the plan (equivalently, its overall
position minus the control-plane blocks so far), for any host limit; the
marker also appears in the rendered text. -/
theorem C7_worker_marker (c : Config) (hosts : List Host) :
    ∀ (j : Nat) (b : CommandBlock), (planBlocks c hosts)[j]? = some b →
      b.role = Role.Worker →
      b.marker = (workerCount ((planBlocks c hosts).take j) : Int) + 1 ∧
      Occurs ("Setting up worker: " ++ toString b.marker) b.rendered := by
  intro j b hb hw
  constructor
  · cases hosts with
    | nil =>
      rw [planBlocks] at hb
      simp [planBlocksAux] at hb
    | cons h rest =>
      cases j with
      | zero =>
        rw [planBlocks_head c h rest] at hb
        simp only [Option.some.injEq] at hb
        rw [← hb] at hw
        simp [primaryBlock] at hw
      | succ j =>
        obtain ⟨hcons, ht⟩ := planBlocks_tail_strong c h rest j b hb
        have hmk := planBlocksAux_marker c rest 1 1 h j b (le_refl 1) ht hw
        have hlen : j < (planBlocksAux c rest 1 1 h).length := by
          have := List.getElem?_eq_some.mp ht
          exact this.1
        have hsplit := cpCount_add_workerCount ((planBlocksAux c rest 1 1 h).take j)
        rw [List.length_take] at hsplit
        rw [hcons, List.take_succ_cons, workerCount_cons,
          if_neg (by simp [primaryBlock]), hmk]
        push_cast
        omega
  · rw [planBlocks] at hb
    rcases planBlocksAux_origin c hosts 0 0 _ j b hb with
      ⟨h, he⟩ | ⟨h, p2, sA2, he⟩ | ⟨h, p2, i2, sA2, he⟩ <;> subst he
    · simp [primaryBlock] at hw
    · simp [additionalBlock] at hw
    · exact workerBlock_marker_echo c h p2 i2 sA2

/-- Witness for C7 at a concrete input: the single worker of a three-host,
two-server plan has marker 1. -/
theorem C7_worker_marker_witness :
    (workerBlock cfgW ⟨"h3", "c"⟩ ⟨"h1", "a"⟩ 2 2).marker =
      (workerCount ((planBlocks cfgW hostsW).take 2) : Int) + 1 ∧
    Occurs ("Setting up worker: " ++
        toString (workerBlock cfgW ⟨"h3", "c"⟩ ⟨"h1", "a"⟩ 2 2).marker)
      (workerBlock cfgW ⟨"h3", "c"⟩ ⟨"h1", "a"⟩ 2 2).rendered :=
  C7_worker_marker cfgW hostsW 2 (workerBlock cfgW ⟨"h3", "c"⟩ ⟨"h1", "a"⟩ 2 2)
    (by decide) rfl

/-- C8: an empty host list is not an error: the RunE body returns ok, the
plan has zero command blocks, and the script is just the fixed
shebang/header. -/
theorem C8_empty_hosts (c : Config) :
    MakePlanRunE c [] = Except.ok ("#!/bin/sh\n\n" ++ "\n") ∧
    planBlocks c [] = [] ∧
    planScript c [] = "#!/bin/sh\n\n" :=
  ⟨rfl, rfl, rfl⟩

/-- C9: the planner is deterministic — two runs on equal inputs render
byte-identical output. -/
theorem C9_deterministic (c1 c2 : Config) (hosts1 hosts2 : List Host)
    (hc : c1 = c2) (hh : hosts1 = hosts2) :
    MakePlanOutput c1 hosts1 = MakePlanOutput c2 hosts2 ∧
    planBlocks c1 hosts1 = planBlocks c2 hosts2 := by
  subst hc
  subst hh
  exact ⟨rfl, rfl⟩

/-- Witness for C9 at a concrete input. -/
theorem C9_deterministic_witness :
    MakePlanOutput cfgW hostsW = MakePlanOutput cfgW hostsW ∧
    planBlocks cfgW hostsW = planBlocks cfgW hostsW :=
  C9_deterministic cfgW cfgW hostsW hostsW rfl rfl

/-- C10: the plan depends only on the hosts' IP fields: two host lists
whose entries have equal ip fields (hostnames arbitrary) yield
byte-identical output under any configuration. -/
theorem C10_hostname_independent (c : Config) (hosts1 hosts2 : List Host)
    (hm : hosts1.map Host.ip = hosts2.map Host.ip) :
    MakePlanOutput c hosts1 = MakePlanOutput c hosts2 := by
  have h : planBlocks c hosts1 = planBlocks c hosts2 :=
    planBlocksAux_ip_only c hosts1 hosts2 0 0 _ _ rfl hm
  rw [MakePlanOutput, MakePlanOutput, planScript, planScript, h]

/-- Witness for C10 at a concrete input: same addresses, different
hostnames. -/
theorem C10_hostname_independent_witness :
    MakePlanOutput cfgW hostsW = MakePlanOutput cfgW hostsW2 :=
  C10_hostname_independent cfgW hostsW hostsW2 (by decide)

end K3sup